import Mathlib

/-!
Verification development for the mapping-extraction engine of
`manage.py` (command `extract_indices_mapping` and its helpers).

The Python source is shallowly embedded: strings are Lean `String`
(a structure over `List Char`, so every operation below is written as
a structural recursion over character lists and is kernel-executable),
missing spreadsheet cells (`NaN`) are `Option String`, fatal
`click.ClickException`s are `Except.error`, and the diagnostics printed
with `click.echo`/`click.secho` are accumulated in a `List Diag`.
All definitions are translated from `manage.py`; line numbers in the
comments refer to that file.
-/

set_option autoImplicit false

namespace EUS

/-! ### Character/string helpers (Python `str` primitives used by the source) -/

/-- Python `c in s` specialised to one character: membership test on the
character list. -/
def hasCh (c : Char) : List Char → Bool
  | [] => false
  | d :: rest => d = c || hasCh c rest

/-- Python `'\n' in s` (lines 228, 230). -/
def hasNl (s : String) : Bool := hasCh '\n' s.toList

/-- Helper for Python `str.split(sep)`: accumulates the current field
(reversed) and cuts at each separator. -/
def splitChAux (sep : Char) : List Char → List Char → List (List Char)
  | acc, [] => [acc.reverse]
  | acc, c :: rest =>
    if c = sep then acc.reverse :: splitChAux sep [] rest
    else splitChAux sep (c :: acc) rest

/-- Python `s.split(sep)` for a one-character separator (so
`"".split(sep) = [""]`, and a trailing separator yields a trailing
empty field, exactly as in Python). -/
def splitCh (sep : Char) (s : String) : List String :=
  (splitChAux sep [] s.toList).map fun l => ⟨l⟩

/-- Python `s.split('\n')` (lines 210, 218, 236). -/
def splitNl (s : String) : List String := splitCh '\n' s

/-- Drops leading characters equal to `c`. -/
def dropLeadCh (c : Char) : List Char → List Char
  | [] => []
  | d :: rest => if d = c then dropLeadCh c rest else d :: rest

/-- Python `s.strip("\n")` (line 236): removes leading and trailing
newline characters. -/
def stripNl (s : String) : String :=
  ⟨((dropLeadCh '\n' ((dropLeadCh '\n' s.toList).reverse)).reverse)⟩

/-- Python `s.lstrip('0')` (lines 155, 177). -/
def lstripZeros (s : String) : String := ⟨dropLeadCh '0' s.toList⟩

/-- Python `s.startswith('B')` (line 247). -/
def startsB (s : String) : Bool :=
  match s.toList with
  | c :: _ => c = 'B'
  | [] => false

/-- True when the string begins with the character `'0'`; the formal
reading of "has a leading zero". -/
def hasLeadingZero (s : String) : Bool :=
  match s.toList with
  | c :: _ => c = '0'
  | [] => false

/-- Python default `str.strip()` whitespace set (line 181; the source
data is ASCII). -/
def isPyWhitespace (c : Char) : Bool :=
  c = ' ' || c = '\t' || c = '\n' || c = '\r' || c = '\x0b' || c = '\x0c'

/-- Drops leading characters satisfying `p`. -/
def dropLeadIf (p : Char → Bool) : List Char → List Char
  | [] => []
  | d :: rest => if p d then dropLeadIf p rest else d :: rest

/-- Python `s.strip()` (line 181): trims whitespace at both ends. -/
def stripWs (s : String) : String :=
  ⟨((dropLeadIf isPyWhitespace ((dropLeadIf isPyWhitespace s.toList).reverse)).reverse)⟩

/-- Consumes an exact literal character sequence, returning the rest. -/
def stripLit : List Char → List Char → Option (List Char)
  | [], cs => some cs
  | _ :: _, [] => none
  | p :: ps, c :: cs => if c = p then stripLit ps cs else none

/-! ### Sheet Classifier (lines 125-155)

The three regular expressions of the source are anchored with `^...$`
and applied to Excel sheet names (which cannot contain newlines), so
each is embedded as a deterministic parser over the character list;
the greedy quantifiers of the patterns never need backtracking on
these alternatives (each optional token is disjoint from what follows).
-/

/-- The set `ignore_sheets` (lines 125-131). -/
def ignoreSheets : List String :=
  ["Annex table 2", "eN40 vs F20", "Legend", "Legend Annex table 2",
   "S.F. vs eForms mapping list "]

/-- `\d\d?` — one digit, then greedily a second if present. -/
def takeDigits12 : List Char → Option (List Char × List Char)
  | [] => none
  | c :: rest =>
    if c.isDigit then
      match rest with
      | d :: rest2 => if d.isDigit then some ([c, d], rest2) else some ([c], rest)
      | [] => some ([c], [])
    else none

/-- `(,\d\d)*` — greedily consumes comma-separated two-digit groups,
returning the consumed characters and the remainder. -/
def takeCommaPairs (acc : List Char) : List Char → List Char × List Char
  | ',' :: a :: b :: rest =>
    if a.isDigit && b.isDigit then takeCommaPairs (acc ++ [',', a, b]) rest
    else (acc, ',' :: a :: b :: rest)
  | rest => (acc, rest)

/-- `keep_sheet_regex = ^(?:eForm|eN) ?(\d\d?(?:,\d\d)*) vs S?F(\d\d) ?$`
(line 136). Returns the two capture groups (raw, zero-padded) on a
match. -/
def parseKeep (s : String) : Option (String × String) := do
  let cs := s.toList
  let rest0 ←
    match stripLit "eForm".toList cs with
    | some r => some r
    | none => stripLit "eN".toList cs
  let rest1 := match rest0 with
    | ' ' :: r => r
    | r => r
  let (ds, rest2) ← takeDigits12 rest1
  let (pairs, rest3) := takeCommaPairs [] rest2
  let rest4 ← stripLit " vs ".toList rest3
  let rest5 := match rest4 with
    | 'S' :: r => r
    | r => r
  let rest6 ← stripLit ['F'] rest5
  match rest6 with
  | a :: b :: rest7 =>
    if a.isDigit && b.isDigit && (rest7 = [] || rest7 = [' ']) then
      some (⟨ds ++ pairs⟩, ⟨[a, b]⟩)
    else none
  | _ => none

/-- First ignore pattern `^F\d\d vs eN\d\d( \(2\))?$` (line 133). -/
def matchesIgnore1 (s : String) : Bool :=
  (do
    let r1 ← stripLit ['F'] s.toList
    match r1 with
    | a :: b :: r2 =>
      if a.isDigit && b.isDigit then
        let r3 ← stripLit " vs eN".toList r2
        match r3 with
        | c :: d :: r4 =>
          if c.isDigit && d.isDigit && (r4 = [] || r4 = " (2)".toList) then
            some ()
          else none
        | _ => none
      else none
    | _ => none : Option Unit).isSome

/-- Second ignore pattern `^SF\d\d vs eForm ?\d\d(,\d\d)*$` (line 134). -/
def matchesIgnore2 (s : String) : Bool :=
  (do
    let r1 ← stripLit "SF".toList s.toList
    match r1 with
    | a :: b :: r2 =>
      if a.isDigit && b.isDigit then
        let r3 ← stripLit " vs eForm".toList r2
        let r4 := match r3 with
          | ' ' :: r => r
          | r => r
        match r4 with
        | c :: d :: r5 =>
          if c.isDigit && d.isDigit && (takeCommaPairs [] r5).2 = [] then
            some ()
          else none
        | _ => none
      else none
    | _ => none : Option Unit).isSome

/-- Result of classifying one sheet name (spec 4.1; lines 147-155). -/
inductive Classify where
  | ignore
  | reject (msg : String)
  | accept (eformsNoticeNumber sfNoticeNumber : String)
  deriving Repr, DecidableEq

/-- The message of the `ClickException` raised at line 152; `{sheet!r}`
renders the name between single quotes for the names occurring here. -/
def rejectMsg (sheet : String) : String :=
  "The sheet name " ++ "\x27" ++ sheet ++ "\x27" ++ " doesn\x27t match a known pattern."

/-- Sheet classification (lines 147-155): the ignore set and the two
ignore patterns are tested first; otherwise the keep pattern must
match, else the run fails. `accept` carries the raw first capture
group (as the code keeps it for `eforms_notice_number`) and the
zero-stripped second group (`sf_notice_number`, line 155). -/
def classify (sheet : String) : Classify :=
  if ignoreSheets.contains sheet || matchesIgnore1 sheet || matchesIgnore2 sheet then
    .ignore
  else
    match parseKeep sheet with
    | none => .reject (rejectMsg sheet)
    | some (g1, g2) => .accept g1 (lstripZeros g2)

/-- The per-sheet new-form notice list and old-form notice number, as
attached to every row: line 177 splits the raw group on `','` and
strips leading zeros from each number. -/
def noticeNumbers (sheet : String) : Option (List String × String) :=
  match classify sheet with
  | .accept g1 sf => some ((splitCh ',' g1).map lstripZeros, sf)
  | _ => none

/-! ### Data model

A raw sheet row after `read_excel` and the renames of lines 161-165:
the relevant columns are named fields (`empty` is position 0, `level`
is position 8, the canonical "Level"), the remaining columns are kept
as an opaque list. A missing cell (pandas `NaN`) is `none`. -/

structure RawRow where
  empty : Option String
  id : Option String
  name : Option String
  level : Option String
  element : Option String
  others : List (Option String)
  deriving Repr, DecidableEq

/-- A normalized row (spec `MappingRow`): all cells are strings after
`fillna('')` (line 184), with the notice-number columns of lines
177-178 attached. -/
structure Row where
  id : String
  name : String
  level : String
  element : String
  eformsNotice : List String
  sfNotice : String
  others : List String
  deriving Repr, DecidableEq

/-- A row of the final table, after `df.explode('eformsNotice')`
(line 256): the notice cell holds one value, or `none` for the `NaN`
produced by exploding an empty list. -/
structure PlacementRow where
  id : String
  name : String
  level : String
  element : String
  eformsNotice : Option String
  sfNotice : String
  others : List String
  deriving Repr, DecidableEq

/-- The diagnostics printed by the engine (lines 201, 231, 243). -/
inductive Diag where
  | removedNewlines (location : String) (element : String)
  | unexpectedNewline (location : String) (element : String)
  | sizeDiffers (location : String) (levels elements : List String)
  deriving Repr, DecidableEq

/-- Spec 7 classifies the count-mismatch report and the
unexpected-newline report as recoverable `AlignmentAnomaly`
diagnostics; the soft-break substitution report of step 4.3.1 is
informational. -/
def Diag.isAlignmentAnomaly : Diag → Bool
  | .removedNewlines _ _ => false
  | .unexpectedNewline _ _ => true
  | .sizeDiffers _ _ _ => true

/-- `fillna('')` on one cell. -/
def orEmpty : Option String → String
  | none => ""
  | some s => s

/-- One normalized row (lines 177-184): notice columns attached,
`Name` trimmed (line 181, applied before `fillna`, so only to present
cells), every remaining missing cell replaced by the empty string. -/
def toRow (newNotices : List String) (sfNotice : String) (r : RawRow) : Row :=
  { id := orEmpty r.id
    name := orEmpty (r.name.map stripWs)
    level := orEmpty r.level
    element := orEmpty r.element
    eformsNotice := newNotices
    sfNotice := sfNotice
    others := r.others.map orEmpty }

/-- Row Normalizer (lines 167-184). Rows with a missing canonical
"Level" are removed first (line 168); then the column at position 0
must be entirely empty among the remaining rows — if so it is dropped
(the output type has no `empty` field), otherwise the
`ClickException` of line 174 aborts the run. `rawEformsGroup` is the
raw first capture group of the sheet name. -/
def normalize (rawEformsGroup : String) (sfNotice : String) (rows : List RawRow) :
    Except String (List Row) :=
  if (rows.filter fun r => r.level.isSome).all (fun r => r.empty.isNone) then
    .ok ((rows.filter fun r => r.level.isSome).map
      (toRow ((splitCh ',' rawEformsGroup).map lstripZeros) sfNotice))
  else
    .error "The first column was expected to be empty."

/-! ### Placement Expander, step 1: newline cleanup (lines 138, 195-202) -/

/-- Python `\w` for the word boundary `\b` (the source data is ASCII). -/
def isWordChar (c : Char) : Bool := c.isAlphanum || c = '_'

/-- `w` occurs at the head of `cs` followed by a word boundary. -/
def wordBounded (w : List Char) (cs : List Char) : Bool :=
  w.isPrefixOf cs &&
    (match cs.drop w.length with
     | [] => true
     | c :: _ => !isWordChar c)

/-- The alternatives of the lookahead in
`replace_newlines = \n(?=\(|(2009|Title III|and|requirements|subcontractor|will)\b)`
(line 138): the characters after a `'\n'` match the lookahead. -/
def softBreakAt (cs : List Char) : Bool :=
  match cs with
  | '(' :: _ => true
  | _ =>
    ["2009", "Title III", "and", "requirements", "subcontractor", "will"].any
      fun w => wordBounded w.toList cs

/-- `replace_newlines.search` (line 196): some newline is followed by
the lookahead. -/
def hasSoftBreak : List Char → Bool
  | [] => false
  | c :: rest => (c = '\n' && softBreakAt rest) || hasSoftBreak rest

/-- `replace_newlines.sub(' ', ...)` (line 202): every such newline
becomes a single space. -/
def subSoft : List Char → List Char
  | [] => []
  | c :: rest => (if c = '\n' && softBreakAt rest then ' ' else c) :: subSoft rest

/-- Python `s.replace('\n\n', '\n')` (line 195): left-to-right,
non-overlapping. -/
def collapseNl : List Char → List Char
  | [] => []
  | [c] => [c]
  | c :: d :: rest =>
    if c = '\n' && d = '\n' then '\n' :: collapseNl rest
    else c :: collapseNl (d :: rest)

/-- Step 1 on the "Element" cell (lines 195-202): collapse doubled
newlines, then — only when the pattern matches, which also triggers
the informational report of line 201 — replace each soft line break
by a space. -/
def cleanupElement (loc : String) (e : String) : String × List Diag :=
  if hasSoftBreak (collapseNl e.toList) then
    (⟨subSoft (collapseNl e.toList)⟩, [Diag.removedNewlines loc ⟨collapseNl e.toList⟩])
  else
    (⟨collapseNl e.toList⟩, [])

/-! ### Placement Expander, step 2: fingerprinted overrides (lines 204-226) -/

/-- The dedented replacement text of lines 220-226 (five lines, each
newline-terminated). -/
def override750Element : String :=
  "Information and formalities necessary for evaluating if the requirements are met:\n" ++
  "Information and formalities necessary for evaluating if the requirements are met:\n" ++
  "Minimum level(s) of standards possibly required: (if applicable)\n" ++
  "Information and formalities necessary for evaluating if the requirements are met:\n" ++
  "Minimum level(s) of standards possibly required: (if applicable)\n"

/-- The two hard-coded corrections (lines 205-226), guarded by their
full fingerprints. -/
def applyOverrides (eforms sf : String) (r : Row) : Row :=
  if eforms = "15" && sf = "7" && r.id = "BT-18" && r.level = "I.3.4.1.1" &&
      (splitNl r.element).length = 2 then
    { r with level := "I.3.4.1.1\nI.3.4.1.2" }
  else if eforms = "18" && sf = "17" && r.id = "BT-750" &&
      r.level = "III.2.1.1.1\nIII.2.2.2\nIII.2.2.3\nIII.2.3.1.1\nIII.2.3.1.2" &&
      (splitNl r.element).length = 2 then
    { r with element := override750Element }
  else r

/-! ### Placement Expander, steps 3-5: split, repeat, filter (lines 228-249) -/

/-- Line 239-241: `length = len(row['Level'])`, and when the "Element"
list is shorter, `row['Element'] *= length` — the whole list is
repeated `length` times (Python list repetition). -/
def adjustElements (lv el : List String) : List String :=
  if el.length < lv.length then (List.replicate lv.length el).flatten else el

/-- The filtering loop of lines 246-249:
`for i, (level, element) in enumerate(zip(...))` over the two live
lists, with `del row['Level'][i]; del row['Element'][i]` inside.
`zip` draws from the mutated lists, and the loop counter always equals
the position the pair was fetched from, so each deletion removes the
pair just examined and the next fetch skips the entry that slid into
its place. `p` is the loop counter; the `fuel` argument only bounds
the recursion: the loop makes at most `lv.length` iterations, so the
initial fuel of `bScan` is never exhausted. -/
def bScanFuel : Nat → List String → List String → Nat → List String × List String
  | 0, lv, el, _ => (lv, el)
  | fuel + 1, lv, el, p =>
    if p < lv.length ∧ p < el.length then
      if startsB (lv.getD p "") then
        bScanFuel fuel (lv.eraseIdx p) (el.eraseIdx p) (p + 1)
      else
        bScanFuel fuel lv el (p + 1)
    else (lv, el)

/-- The B-filter (lines 245-249) run from the start of the lists. -/
def bScan (lv el : List String) : List String × List String :=
  bScanFuel lv.length lv el 0

/-- A row after the expander: either untouched (its "Level" had no
newline, line 228) or with "Level"/"Element" turned into lists. -/
inductive Expanded where
  | single (r : Row)
  | multi (levels elements : List String) (r : Row)
  deriving Repr, DecidableEq

/-- Steps 3-5 for one row (lines 228-249): a newline-free "Level"
leaves the row alone (warning at line 231 when the "Element" still
holds a newline); otherwise both cells are stripped of outer newlines
and split (line 236), the element list is repeated when shorter
(lines 239-241), a remaining count mismatch is reported (line 243),
and the B-prefixed pairs are deleted (lines 245-249). -/
def splitLevels (r : Row) : List String := splitNl (stripNl r.level)

/-- The "Element" list of a split row, after the repetition of lines
239-241. -/
def splitElements (r : Row) : List String :=
  adjustElements (splitLevels r) (splitNl (stripNl r.element))

def splitStage (loc : String) (r : Row) : Expanded × List Diag :=
  if hasNl r.level then
    (.multi (bScan (splitLevels r) (splitElements r)).1
            (bScan (splitLevels r) (splitElements r)).2 r,
     if (splitLevels r).length = (splitElements r).length then []
     else [Diag.sizeDiffers loc (splitLevels r) (splitElements r)])
  else
    (.single r, if hasNl r.element then [Diag.unexpectedNewline loc r.element] else [])

/-- The prefix of every diagnostic for one row (line 192): the raw
new-form group, the stripped old-form number, the row's "ID". -/
def location (eforms sf id : String) : String :=
  "eForm" ++ eforms ++ " - SF" ++ sf ++ ": " ++ id ++ ": "

/-- The row after steps 1-2 (cleanup, then overrides). -/
def processedRow (eforms sf : String) (r0 : Row) : Row :=
  applyOverrides eforms sf
    { r0 with element := (cleanupElement (location eforms sf r0.id) r0.element).1 }

/-- The whole per-row expander (lines 191-249), collecting the
diagnostics in emission order. -/
def expandRow (eforms sf : String) (r0 : Row) : Expanded × List Diag :=
  ((splitStage (location eforms sf r0.id) (processedRow eforms sf r0)).1,
   (cleanupElement (location eforms sf r0.id) r0.element).2 ++
     (splitStage (location eforms sf r0.id) (processedRow eforms sf r0)).2)

/-! ### Emission: `df.explode(['Level', 'Element'])` (lines 251-254) -/

/-- The message of the `ValueError` pandas raises when the exploded
columns of some row hold lists of different lengths. -/
def explodeErrMsg : String := "columns must have matching element counts"

/-- Multi-column explode for one row: a pair of equal-length lists
becomes one output row per pair (a pair of empty lists becomes a
single row whose two cells are `NaN`, modelled as `""`); unequal
lengths raise the `ValueError`. An untouched row passes through. -/
def explodeExpanded : Expanded → Except String (List Row)
  | .single r => .ok [r]
  | .multi lv el r =>
    if lv.length = el.length then
      .ok (if lv.isEmpty then [{ r with level := "", element := "" }]
           else (lv.zip el).map fun p => { r with level := p.1, element := p.2 })
    else .error explodeErrMsg

/-- `df.explode(explode)` over the whole sheet: pandas validates every
row, raising one `ValueError` (a single message) if any row
mismatches. -/
def explodeAll : List Expanded → Except String (List Row)
  | [] => .ok []
  | ex :: rest =>
    match explodeExpanded ex, explodeAll rest with
    | .error e, _ => .error e
    | .ok _, .error e => .error e
    | .ok rs, .ok more => .ok (rs ++ more)

/-- The expander over one sheet's normalized rows: every row's
diagnostics are printed during the loop (lines 191-249), then the
table is exploded (line 252). -/
def expandSheet (eforms sf : String) (rows : List Row) : List Diag × Except String (List Row) :=
  ((rows.map (expandRow eforms sf)).flatMap Prod.snd,
   explodeAll ((rows.map (expandRow eforms sf)).map Prod.fst))

/-! ### Corpus Assembler (lines 256-260) -/

/-- `df.explode('eformsNotice')` for one row: one output row per
notice value, all other fields copied; an empty list explodes to a
single row holding `NaN` (`none`). -/
def explodeOne (r : Row) : List PlacementRow :=
  match r.eformsNotice with
  | [] => [⟨r.id, r.name, r.level, r.element, none, r.sfNotice, r.others⟩]
  | ns => ns.map fun n => ⟨r.id, r.name, r.level, r.element, some n, r.sfNotice, r.others⟩

/-- The notice fan-out over a sheet's placements (line 256). -/
def explodeNotices (rows : List Row) : List PlacementRow :=
  rows.flatMap explodeOne

/-! ### The per-sheet pipeline and the run (lines 145-260) -/

/-- Processing of one sheet: classification, normalization, expansion,
explosion, fan-out. An ignored sheet contributes nothing; a rejected
sheet or a failed shape check raises (`Except.error`); the explode
`ValueError` is wrapped with the sheet name (line 254). -/
def processSheet (sheet : String) (table : List RawRow) :
    List Diag × Except String (List PlacementRow) :=
  match classify sheet with
  | .ignore => ([], .ok [])
  | .reject msg => ([], .error msg)
  | .accept g1 sf =>
    match normalize g1 sf table with
    | .error e => ([], .error e)
    | .ok rows =>
      ((expandSheet g1 sf rows).1,
       match (expandSheet g1 sf rows).2 with
       | .ok placed => .ok (explodeNotices placed)
       | .error e => .error (sheet ++ ": " ++ e))

/-- The whole extraction run (lines 144-260): sheets in discovery
order; the first raised exception aborts the run (the concatenation
and output of line 260 never happen), while diagnostics printed before
the abort have already been emitted. -/
def extractAll : List (String × List RawRow) → List Diag × Except String (List PlacementRow)
  | [] => ([], .ok [])
  | (name, table) :: rest =>
    match processSheet name table with
    | (d, .error e) => (d, .error e)
    | (d, .ok out) =>
      match extractAll rest with
      | (d2, .error e) => (d ++ d2, .error e)
      | (d2, .ok out2) => (d ++ d2, .ok (out ++ out2))

deriving instance DecidableEq for Except

/-- A list with no two adjacent entries both starting with `'B'`
(decidable form used in claim statements). -/
def noAdjB : List String → Bool
  | [] => true
  | [_] => true
  | a :: b :: rest => !(startsB a && startsB b) && noAdjB (b :: rest)

/-- Comparator for C1, modelled from the spec words only: repeat the
last element of the descriptive sequence until its length matches the
level count. -/
def repeatLastToLength (el : List String) (n : Nat) : List String :=
  el ++ List.replicate (n - el.length) (el.getLastD "")

/-! ### Supporting lemmas -/

theorem hasCh_cons_false {c d : Char} {rest : List Char} (h : hasCh c (d :: rest) = false) :
    ¬d = c ∧ hasCh c rest = false := by
  simpa [hasCh] using h

theorem splitChAux_no_sep (sep : Char) :
    ∀ (l acc : List Char), hasCh sep l = false →
      splitChAux sep acc l = [acc.reverse ++ l]
  | [], acc, _ => by simp [splitChAux]
  | c :: rest, acc, h => by
    obtain ⟨hc, hrest⟩ := hasCh_cons_false h
    rw [splitChAux, if_neg hc, splitChAux_no_sep sep rest (c :: acc) hrest]
    simp

theorem splitNl_no_nl {s : String} (h : hasNl s = false) : splitNl s = [s] := by
  unfold splitNl splitCh
  rw [splitChAux_no_sep '\n' s.toList [] h]
  simp

theorem collapseNl_no_nl : ∀ l : List Char, hasCh '\n' l = false → collapseNl l = l
  | [], _ => rfl
  | [_], _ => rfl
  | c :: d :: rest, h => by
    obtain ⟨hc, h2⟩ := hasCh_cons_false h
    rw [collapseNl, if_neg (by simp [hc]), collapseNl_no_nl (d :: rest) h2]

theorem hasSoftBreak_no_nl : ∀ l : List Char, hasCh '\n' l = false → hasSoftBreak l = false
  | [], _ => rfl
  | c :: rest, h => by
    obtain ⟨hc, h2⟩ := hasCh_cons_false h
    rw [hasSoftBreak]
    simp [hc, hasSoftBreak_no_nl rest h2]

theorem cleanupElement_no_nl {e : String} (loc : String) (h : hasNl e = false) :
    cleanupElement loc e = (e, []) := by
  unfold cleanupElement
  rw [collapseNl_no_nl _ h]
  rw [if_neg (by rw [hasSoftBreak_no_nl _ h]; simp)]
  exact rfl

theorem applyOverrides_no_nl {r : Row} (eforms sf : String) (h : hasNl r.element = false) :
    applyOverrides eforms sf r = r := by
  have hl : (splitNl r.element).length = 1 := by rw [splitNl_no_nl h]; rfl
  simp [applyOverrides, hl]

theorem processedRow_no_nl {r : Row} (eforms sf : String) (h : hasNl r.element = false) :
    processedRow eforms sf r = r := by
  unfold processedRow
  rw [cleanupElement_no_nl _ h]
  exact applyOverrides_no_nl eforms sf h

theorem bScanFuel_len (fuel : Nat) :
    ∀ (lv el : List String) (p : Nat),
      (bScanFuel fuel lv el p).1.length + el.length =
        (bScanFuel fuel lv el p).2.length + lv.length := by
  induction fuel with
  | zero =>
    intro lv el p
    show lv.length + el.length = el.length + lv.length
    omega
  | succ n ih =>
    intro lv el p
    by_cases hc : p < lv.length ∧ p < el.length
    · rw [bScanFuel, if_pos hc]
      by_cases hb : startsB (lv.getD p "") = true
      · rw [if_pos hb]
        have h1 := ih (lv.eraseIdx p) (el.eraseIdx p) (p + 1)
        rw [List.length_eraseIdx_of_lt hc.1, List.length_eraseIdx_of_lt hc.2] at h1
        omega
      · rw [if_neg hb]
        exact ih lv el (p + 1)
    · rw [bScanFuel, if_neg hc]
      show lv.length + el.length = el.length + lv.length
      omega

theorem bScan_len (lv el : List String) :
    (bScan lv el).1.length + el.length = (bScan lv el).2.length + lv.length :=
  bScanFuel_len lv.length lv el 0

theorem getD_eraseIdx :
    ∀ (l : List String) (p : Nat), p < l.length → ∀ (i : Nat) (d : String),
      (l.eraseIdx p).getD i d = if i < p then l.getD i d else l.getD (i + 1) d
  | [], p, hp, _, _ => by simp at hp
  | a :: t, 0, _, i, d => by
    rw [List.eraseIdx_cons_zero, if_neg (Nat.not_lt_zero i), List.getD_cons_succ]
  | a :: t, q + 1, hp, 0, d => by
    rw [List.eraseIdx_cons_succ, List.getD_cons_zero, if_pos (Nat.succ_pos q),
      List.getD_cons_zero]
  | a :: t, q + 1, hp, j + 1, d => by
    have hq : q < t.length := by simpa using hp
    rw [List.eraseIdx_cons_succ, List.getD_cons_succ, getD_eraseIdx t q hq j d]
    by_cases hj : j < q
    · rw [if_pos hj, if_pos (by omega : j + 1 < q + 1), List.getD_cons_succ]
    · rw [if_neg hj, if_neg (by omega : ¬(j + 1 < q + 1)), List.getD_cons_succ]

theorem getD_of_mem {x : String} {l : List String} (hx : x ∈ l) :
    ∃ i, i < l.length ∧ l.getD i "" = x := by
  obtain ⟨i, hi, hEq⟩ := List.mem_iff_getElem.mp hx
  exact ⟨i, hi, by rw [List.getD_eq_getElem _ _ hi]; exact hEq⟩

theorem bScanFuel_no_b :
    ∀ (fuel : Nat) (lv el : List String) (p : Nat),
      lv.length ≤ el.length →
      lv.length - p ≤ fuel →
      (∀ i, ¬(startsB (lv.getD i "") = true ∧ startsB (lv.getD (i + 1) "") = true)) →
      (∀ i, i < p → startsB (lv.getD i "") = false) →
      ∀ x ∈ (bScanFuel fuel lv el p).1, startsB x = false := by
  intro fuel
  induction fuel with
  | zero =>
    intro lv el p _ hfuel _ hpref x hx
    have hple : lv.length ≤ p := by omega
    replace hx : x ∈ lv := hx
    obtain ⟨i, hi, hEq⟩ := getD_of_mem hx
    rw [← hEq]
    exact hpref i (by omega)
  | succ n ih =>
    intro lv el p hle hfuel hadj hpref x hx
    by_cases hc : p < lv.length ∧ p < el.length
    · rw [bScanFuel, if_pos hc] at hx
      by_cases hb : startsB (lv.getD p "") = true
      · rw [if_pos hb] at hx
        refine ih (lv.eraseIdx p) (el.eraseIdx p) (p + 1) ?_ ?_ ?_ ?_ x hx
        · rw [List.length_eraseIdx_of_lt hc.1, List.length_eraseIdx_of_lt hc.2]; omega
        · rw [List.length_eraseIdx_of_lt hc.1]; omega
        · intro i
          rw [getD_eraseIdx lv p hc.1 i, getD_eraseIdx lv p hc.1 (i + 1)]
          by_cases h1 : i + 1 < p
          · rw [if_pos (by omega), if_pos h1]
            exact hadj i
          · by_cases h2 : i < p
            · rw [if_pos h2, if_neg h1]
              intro hcontra
              rw [hpref i h2] at hcontra
              exact absurd hcontra.1 (by simp)
            · rw [if_neg h2, if_neg h1]
              exact hadj (i + 1)
        · intro i hip
          rw [getD_eraseIdx lv p hc.1 i]
          by_cases h2 : i < p
          · rw [if_pos h2]; exact hpref i h2
          · rw [if_neg h2]
            have hi : i = p := by omega
            subst hi
            cases hq : startsB (lv.getD (i + 1) "") with
            | false => rfl
            | true => exact absurd ⟨hb, hq⟩ (hadj i)
      · rw [if_neg hb] at hx
        refine ih lv el (p + 1) hle (by omega) hadj ?_ x hx
        intro i hip
        by_cases h2 : i < p
        · exact hpref i h2
        · have hi : i = p := by omega
          subst hi
          simpa using hb
    · rw [bScanFuel, if_neg hc] at hx
      have hple : lv.length ≤ p := by omega
      replace hx : x ∈ lv := hx
      obtain ⟨i, hi, hEq⟩ := getD_of_mem hx
      rw [← hEq]
      exact hpref i (by omega)

theorem noAdjB_getD :
    ∀ (l : List String), noAdjB l = true →
      ∀ i, ¬(startsB (l.getD i "") = true ∧ startsB (l.getD (i + 1) "") = true)
  | [], _, i => by simp [List.getD, startsB]
  | [a], _, i => by
    cases i with
    | zero => simp [List.getD, startsB]
    | succ j => simp [List.getD, startsB]
  | a :: b :: rest, h, i => by
    rw [noAdjB] at h
    simp only [Bool.and_eq_true, Bool.not_eq_true'] at h
    cases i with
    | zero =>
      intro hcontra
      rw [List.getD_cons_zero, List.getD_cons_succ, List.getD_cons_zero] at hcontra
      rw [hcontra.1, hcontra.2] at h
      simpa using h.1
    | succ j =>
      have := noAdjB_getD (b :: rest) h.2 j
      simpa [List.getD_cons_succ] using this

theorem bScan_no_b (lv el : List String) (hle : lv.length ≤ el.length)
    (hadj : noAdjB lv = true) :
    ∀ x ∈ (bScan lv el).1, startsB x = false :=
  bScanFuel_no_b lv.length lv el 0 hle (by omega) (noAdjB_getD lv hadj)
    (fun i hi => absurd hi (Nat.not_lt_zero i))

theorem explodeExpanded_error {ex : Expanded} {e : String}
    (h : explodeExpanded ex = .error e) : e = explodeErrMsg := by
  cases ex with
  | single r => simp [explodeExpanded] at h
  | multi lv el r =>
    rw [explodeExpanded] at h
    by_cases hc : lv.length = el.length
    · rw [if_pos hc] at h; simp at h
    · rw [if_neg hc] at h
      exact (Except.error.inj h).symm

theorem explodeAll_error :
    ∀ (pre : List Expanded) {ex : Expanded} (post : List Expanded),
      explodeExpanded ex = .error explodeErrMsg →
      explodeAll (pre ++ ex :: post) = .error explodeErrMsg
  | [], ex, post, h => by
    rw [List.nil_append, explodeAll, h]
  | a :: pre, ex, post, h => by
    rw [List.cons_append, explodeAll, explodeAll_error pre post h]
    cases ha : explodeExpanded a with
    | error e => rw [explodeExpanded_error ha]
    | ok rs => rfl

/-! ### Claim theorems -/

/-- C4: for every normalized input row whose "Level" cell contains no
newline and whose "Element" cell contains no newline, the expander
emits exactly one placement, identical to the row in every field (no
column value is altered by the expansion stage), with no diagnostics. -/
theorem notSplitRowUnchanged (eforms sf : String) (r : Row)
    (h1 : hasNl r.level = false) (h2 : hasNl r.element = false) :
    expandRow eforms sf r = (.single r, []) ∧
    expandSheet eforms sf [r] = ([], .ok [r]) := by
  have hp : processedRow eforms sf r = r := processedRow_no_nl eforms sf h2
  have hsplit : splitStage (location eforms sf r.id) r = (.single r, []) := by
    unfold splitStage
    rw [if_neg (by rw [h1]; simp), if_neg (by rw [h2]; simp)]
  have hclean := cleanupElement_no_nl (location eforms sf r.id) h2
  have hrow : expandRow eforms sf r = (.single r, []) := by
    unfold expandRow
    rw [hp, hsplit, hclean]
    rfl
  refine ⟨hrow, ?_⟩
  unfold expandSheet
  rw [List.map_cons, List.map_nil, hrow]
  simp [explodeAll, explodeExpanded]

/-- Witness for C4 at a concrete row. -/
theorem notSplitRowUnchanged_witness :
    expandSheet "1" "2" [⟨"BT-2", "Name", "II.1.1", "Title", ["1"], "2", ["x"]⟩] =
      ([], .ok [⟨"BT-2", "Name", "II.1.1", "Title", ["1"], "2", ["x"]⟩]) :=
  (notSplitRowUnchanged "1" "2" ⟨"BT-2", "Name", "II.1.1", "Title", ["1"], "2", ["x"]⟩
    (by decide) (by decide)).2

/-- C8: a row whose "Level" holds no newline after cleanup and
overrides, while its "Element" still does, yields exactly one
alignment-anomaly diagnostic (the line-231 warning) and exactly one
placement whose description keeps its internal newline (no join or
split is performed). -/
theorem singleLevelMultilineElement (eforms sf : String) (r0 : Row)
    (h1 : hasNl (processedRow eforms sf r0).level = false)
    (h2 : hasNl (processedRow eforms sf r0).element = true) :
    (expandRow eforms sf r0).1 = .single (processedRow eforms sf r0) ∧
    (expandRow eforms sf r0).2.filter Diag.isAlignmentAnomaly =
      [Diag.unexpectedNewline (location eforms sf r0.id)
        (processedRow eforms sf r0).element] ∧
    explodeAll [(expandRow eforms sf r0).1] = .ok [processedRow eforms sf r0] := by
  have hsplit : splitStage (location eforms sf r0.id) (processedRow eforms sf r0) =
      (.single (processedRow eforms sf r0),
       [Diag.unexpectedNewline (location eforms sf r0.id)
         (processedRow eforms sf r0).element]) := by
    unfold splitStage
    rw [if_neg (by rw [h1]; simp), if_pos h2]
  have hfilter : ((cleanupElement (location eforms sf r0.id) r0.element).2).filter
      Diag.isAlignmentAnomaly = [] := by
    unfold cleanupElement
    by_cases hs : hasSoftBreak (collapseNl r0.element.toList) = true
    · rw [if_pos hs]; rfl
    · rw [if_neg hs]; rfl
  have hrow1 : (expandRow eforms sf r0).1 = .single (processedRow eforms sf r0) := by
    unfold expandRow
    rw [hsplit]
  refine ⟨hrow1, ?_, ?_⟩
  · unfold expandRow
    rw [hsplit, List.filter_append, hfilter]
    rfl
  · rw [hrow1]
    simp [explodeAll, explodeExpanded]

/-- Witness for C8 at a concrete row. -/
theorem singleLevelMultilineElement_witness :
    (expandRow "1" "2" ⟨"BT-531", "", "III.2.1.1.1", "a\nb", ["1"], "2", []⟩).1 =
      .single (processedRow "1" "2" ⟨"BT-531", "", "III.2.1.1.1", "a\nb", ["1"], "2", []⟩) :=
  (singleLevelMultilineElement "1" "2" ⟨"BT-531", "", "III.2.1.1.1", "a\nb", ["1"], "2", []⟩
    (by decide) (by decide)).1

/-- C9: a placement holding k new-form notice values explodes into
exactly k output rows, one per notice, every other field copied
unchanged, independently of the surrounding placements. -/
theorem noticeFanOut (pre post : List Row) (r : Row) (h : r.eformsNotice ≠ []) :
    explodeNotices (pre ++ r :: post) =
      explodeNotices pre ++ explodeOne r ++ explodeNotices post ∧
    (explodeOne r).length = r.eformsNotice.length ∧
    ∀ p ∈ explodeOne r,
      p.id = r.id ∧ p.name = r.name ∧ p.level = r.level ∧ p.element = r.element ∧
      p.sfNotice = r.sfNotice ∧ p.others = r.others ∧
      ∃ n ∈ r.eformsNotice, p.eformsNotice = some n := by
  obtain ⟨n, ns, hns⟩ : ∃ n ns, r.eformsNotice = n :: ns := by
    cases hr : r.eformsNotice with
    | nil => exact absurd hr h
    | cons n ns => exact ⟨n, ns, rfl⟩
  refine ⟨?_, ?_, ?_⟩
  · unfold explodeNotices
    simp
  · unfold explodeOne
    rw [hns]
    simp
  · intro p hp
    unfold explodeOne at hp
    rw [hns] at hp
    simp only [List.mem_map] at hp
    obtain ⟨a, ha, hpa⟩ := hp
    subst hpa
    exact ⟨rfl, rfl, rfl, rfl, rfl, rfl, a, by rw [hns]; exact ha, rfl⟩

/-- Witness for C9 at a concrete two-notice placement. -/
theorem noticeFanOut_witness :
    (explodeOne ⟨"BT-1", "", "I.1", "d", ["15", "18"], "7", []⟩).length =
      (⟨"BT-1", "", "I.1", "d", ["15", "18"], "7", []⟩ : Row).eformsNotice.length :=
  (noticeFanOut [] [] ⟨"BT-1", "", "I.1", "d", ["15", "18"], "7", []⟩ (by decide)).2.1

/-- C10: the ignore set and ignore patterns are checked before the
accept pattern, so a name in the ignore set is skipped (no placements,
no error) even when it also matches the accept pattern — as the name
"eN40 vs F20" does. -/
theorem ignoreBeforeAccept (s : String) (t : List RawRow)
    (h : (ignoreSheets.contains s || matchesIgnore1 s || matchesIgnore2 s) = true) :
    classify s = .ignore ∧ processSheet s t = ([], .ok []) ∧
    (parseKeep "eN40 vs F20").isSome = true ∧ classify "eN40 vs F20" = .ignore := by
  have hc : classify s = .ignore := by
    unfold classify
    rw [if_pos h]
  refine ⟨hc, ?_, by decide, by decide⟩
  unfold processSheet
  rw [hc]

/-- Witness for C10 at the ignored-but-accept-matching name. -/
theorem ignoreBeforeAccept_witness : classify "eN40 vs F20" = .ignore :=
  (ignoreBeforeAccept "eN40 vs F20" [] (by decide)).1

/-- C6: a sheet name that is neither ignored nor accept-matching is
rejected with a message that contains the exact name, and the whole
extraction aborts there (no output table, regardless of the remaining
sheets). -/
theorem unknownSheetFatal (name : String) (table : List RawRow)
    (rest : List (String × List RawRow))
    (h1 : ignoreSheets.contains name = false)
    (h2 : matchesIgnore1 name = false)
    (h3 : matchesIgnore2 name = false)
    (h4 : parseKeep name = none) :
    classify name = .reject (rejectMsg name) ∧
    extractAll ((name, table) :: rest) = ([], .error (rejectMsg name)) ∧
    ∃ pre post, rejectMsg name = pre ++ name ++ post := by
  have hc : classify name = .reject (rejectMsg name) := by
    unfold classify
    rw [if_neg (by rw [h1, h2, h3]; simp), h4]
  have hps : processSheet name table = ([], .error (rejectMsg name)) := by
    unfold processSheet
    rw [hc]
  refine ⟨hc, ?_, "The sheet name \x27", "\x27 doesn\x27t match a known pattern.", ?_⟩
  · unfold extractAll
    rw [hps]
  · unfold rejectMsg
    rw [String.append_assoc ("The sheet name " ++ "\x27" ++ name) "\x27"
      " doesn\x27t match a known pattern."]
    rfl

/-- Witness for C6 at the spec's scenario E name. -/
theorem unknownSheetFatal_witness :
    extractAll [("Random Sheet", [])] = ([], .error (rejectMsg "Random Sheet")) :=
  (unknownSheetFatal "Random Sheet" [] [] (by decide) (by decide) (by decide)
    (by decide)).2.1

/-- C7 counterexample: a table whose only non-empty position-0 cell
sits in a row with a missing "Level": the row is filtered out first
(line 168), so the code accepts the sheet instead of raising the
fatal error the claim requires for any non-empty position-0 cell. -/
theorem emptyColumnCheck_counterexample :
    normalize "01" "2" [⟨some "x", some "BT-1", none, none, none, []⟩] = .ok [] ∧
    ([⟨some "x", some "BT-1", none, none, none, []⟩] : List RawRow).any
      (fun r => r.empty.isSome) = true := by
  constructor
  · rfl
  · rfl

/-- C7 (amended): rows lacking a "Level" value are removed first; if
the position-0 column is entirely empty among the remaining rows the
column is dropped and normalization succeeds (one output row per
remaining row), otherwise the fatal error aborts the run. -/
theorem emptyColumnCheck (g sf : String) (rows : List RawRow) :
    ((rows.filter fun r => r.level.isSome).all (fun r => r.empty.isNone) = false →
      normalize g sf rows = .error "The first column was expected to be empty.") ∧
    ((rows.filter fun r => r.level.isSome).all (fun r => r.empty.isNone) = true →
      ∃ out, normalize g sf rows = .ok out ∧
        out.length = (rows.filter fun r => r.level.isSome).length) := by
  constructor
  · intro h
    unfold normalize
    rw [if_neg (by rw [h]; simp)]
  · intro h
    unfold normalize
    rw [if_pos h]
    exact ⟨_, rfl, by simp⟩

/-- Witness for C7 (amended): a surviving row with a non-empty
position-0 cell is fatal. -/
theorem emptyColumnCheck_witness :
    normalize "01" "2" [⟨some "x", some "BT-1", none, some "I.1", none, []⟩] =
      .error "The first column was expected to be empty." :=
  (emptyColumnCheck "01" "2" [⟨some "x", some "BT-1", none, some "I.1", none, []⟩]).1
    (by decide)

/-- C1 counterexample: a split row with three levels and two elements.
The code multiplies the whole element list by the level count (six
entries), not the last-element repetition (three entries) that the
claim describes. -/
theorem elementRepetition_counterexample :
    (expandRow "1" "2" ⟨"BT-1", "", "a\nb\nc", "x\ny", ["1"], "2", []⟩).1 =
      .multi ["a", "b", "c"] ["x", "y", "x", "y", "x", "y"]
        ⟨"BT-1", "", "a\nb\nc", "x\ny", ["1"], "2", []⟩ ∧
    repeatLastToLength ["x", "y"] 3 = ["x", "y", "y"] ∧
    (["x", "y", "x", "y", "x", "y"] : List String) ≠ ["x", "y", "y"] := by
  refine ⟨by decide, by decide, by decide⟩

/-- C1 (amended): when the element list is shorter, the whole element
list is repeated level-count times; this equals repeating the last
element to match the level count exactly when the element list has a
single entry; with two or more entries the adjusted length is the
product of the two counts, which differs from the level count (so the
size-differs path is taken); the list is unchanged whenever it is at
least as long as the level list. -/
theorem elementRepetition (lv el : List String) :
    (el.length = 1 → el.length < lv.length →
      adjustElements lv el = List.replicate lv.length (el.headD "")) ∧
    (lv.length ≤ el.length → adjustElements lv el = el) ∧
    (1 < el.length → el.length < lv.length →
      (adjustElements lv el).length = lv.length * el.length ∧
      (adjustElements lv el).length ≠ lv.length) := by
  refine ⟨?_, ?_, ?_⟩
  · intro h1 h2
    obtain ⟨x, hx⟩ : ∃ x, el = [x] := by
      cases el with
      | nil => simp at h1
      | cons a t =>
        cases t with
        | nil => exact ⟨a, rfl⟩
        | cons b t2 => simp at h1
    subst hx
    unfold adjustElements
    rw [if_pos h2]
    simp
  · intro h
    unfold adjustElements
    rw [if_neg (by omega)]
  · intro h1 h2
    have hlen : ((List.replicate lv.length el).flatten).length =
        lv.length * el.length := by
      rw [List.length_flatten, List.map_replicate, List.sum_replicate, smul_eq_mul]
    have h3 : lv.length * 2 ≤ lv.length * el.length :=
      Nat.mul_le_mul_left lv.length h1
    unfold adjustElements
    rw [if_pos h2]
    exact ⟨hlen, by omega⟩

/-- Witness for C1 (amended) at a singleton element list. -/
theorem elementRepetition_witness :
    adjustElements ["a", "b", "c"] ["x"] = List.replicate 3 "x" :=
  (elementRepetition ["a", "b", "c"] ["x"]).1 (by decide) (by decide)

/-! ### Claims about the classifier output (C5) -/

theorem dropLeadCh_head_ne (c : Char) :
    ∀ (l : List Char) (d : Char) (rest : List Char), dropLeadCh c l = d :: rest → ¬d = c
  | [], d, rest, h => by simp [dropLeadCh] at h
  | e :: l, d, rest, h => by
    rw [dropLeadCh] at h
    by_cases he : e = c
    · rw [if_pos he] at h
      exact dropLeadCh_head_ne c l d rest h
    · rw [if_neg he] at h
      injection h with h1 h2
      subst h1
      exact he

theorem hasLeadingZero_lstripZeros (s : String) : hasLeadingZero (lstripZeros s) = false := by
  have hls : (lstripZeros s).toList = dropLeadCh '0' s.toList := rfl
  unfold hasLeadingZero
  rw [hls]
  cases heq : dropLeadCh '0' s.toList with
  | nil => rfl
  | cons d rest =>
    have hne := dropLeadCh_head_ne '0' s.toList d rest heq
    simp [hne]

theorem classify_accept {s g1 g2 : String} (h : classify s = .accept g1 g2) :
    ∃ raw, parseKeep s = some (g1, raw) ∧ g2 = lstripZeros raw := by
  unfold classify at h
  by_cases hig : (ignoreSheets.contains s || matchesIgnore1 s || matchesIgnore2 s) = true
  · rw [if_pos hig] at h
    exact absurd h (by simp)
  · rw [if_neg hig] at h
    cases hp : parseKeep s with
    | none => rw [hp] at h; exact absurd h (by simp)
    | some pr =>
      obtain ⟨a, b⟩ := pr
      rw [hp] at h
      injection h with ha hb
      subst ha
      exact ⟨b, rfl, hb.symm⟩

/-- C5: the sheet name "eForm15,18 vs SF07" is accepted with new-form
notices ["15", "18"] and old-form notice "7"; in general, every
notice number attached from an accepted sheet name has its leading
zeros stripped. -/
theorem classifierScenarioA :
    noticeNumbers "eForm15,18 vs SF07" = some (["15", "18"], "7") ∧
    ∀ s ns o, noticeNumbers s = some (ns, o) →
      ((∀ n ∈ ns, hasLeadingZero n = false) ∧ hasLeadingZero o = false) := by
  refine ⟨by decide, ?_⟩
  intro s ns o h
  unfold noticeNumbers at h
  cases hc : classify s with
  | ignore => rw [hc] at h; exact absurd h (by simp)
  | reject m => rw [hc] at h; exact absurd h (by simp)
  | accept g1 g2 =>
    rw [hc] at h
    simp only [Option.some.injEq, Prod.mk.injEq] at h
    obtain ⟨hns, ho⟩ := h
    obtain ⟨raw, hpk, hg2⟩ := classify_accept hc
    constructor
    · intro n hn
      rw [← hns] at hn
      obtain ⟨m, hm, hmn⟩ := List.mem_map.mp hn
      rw [← hmn]
      exact hasLeadingZero_lstripZeros m
    · rw [← ho, hg2]
      exact hasLeadingZero_lstripZeros raw

/-- Witness for C5 at the accepted scenario-A name. -/
theorem classifierScenarioA_witness : hasLeadingZero "7" = false :=
  (classifierScenarioA.2 "eForm15,18 vs SF07" ["15", "18"] "7" (by decide)).2

/-! ### Claims about the B-filter (C2) -/

/-- C2 counterexample: two consecutive B-prefixed sub-levels. The
in-place deletion skips the entry that slides into the deleted
position, so the placement emitted for this row has Level "B.2",
which begins with the reserved marker. -/
theorem bFilterSkipsSuccessor_counterexample :
    expandSheet "1" "2" [⟨"BT-1", "", "B.1\nB.2", "x\ny", ["1"], "2", []⟩] =
      ([], .ok [⟨"BT-1", "", "B.2", "y", ["1"], "2", []⟩]) ∧
    startsB "B.2" = true := by
  refine ⟨by decide, by decide⟩

/-- C2 (amended): a B-prefixed sub-level is discarded with its paired
descriptive sub-value at the same index, but the sub-level right
after a deleted one is skipped by the scan (so of two adjacent
B-prefixed sub-levels the second survives). Whenever no two adjacent
split sub-levels both start with the marker and the counts align, no
emitted placement's Level begins with it. -/
theorem bFilterSkipsSuccessor (loc : String) (r : Row)
    (hnl : hasNl r.level = true)
    (hlen : (splitLevels r).length = (splitNl (stripNl r.element)).length)
    (hadj : noAdjB (splitLevels r) = true) :
    ∀ rs, explodeExpanded (splitStage loc r).1 = .ok rs →
      ∀ q ∈ rs, startsB q.level = false := by
  intro rs hok q hq
  have hel : splitElements r = splitNl (stripNl r.element) := by
    unfold splitElements adjustElements
    rw [if_neg (by omega)]
  have hle : (splitLevels r).length ≤ (splitElements r).length := by rw [hel]; omega
  have hs1 : (splitStage loc r).1 =
      .multi (bScan (splitLevels r) (splitElements r)).1
             (bScan (splitLevels r) (splitElements r)).2 r := by
    unfold splitStage
    rw [if_pos hnl]
  rw [hs1] at hok
  have hlen2 : (splitLevels r).length = (splitElements r).length := by
    rw [hel]
    exact hlen
  have hpost : (bScan (splitLevels r) (splitElements r)).1.length =
      (bScan (splitLevels r) (splitElements r)).2.length := by
    have hb := bScan_len (splitLevels r) (splitElements r)
    omega
  rw [explodeExpanded, if_pos hpost] at hok
  have hnob := bScan_no_b (splitLevels r) (splitElements r) hle hadj
  by_cases hemp : (bScan (splitLevels r) (splitElements r)).1.isEmpty = true
  · rw [if_pos hemp] at hok
    injection hok with hok
    rw [← hok] at hq
    rw [List.mem_singleton.mp hq]
    rfl
  · rw [if_neg hemp] at hok
    injection hok with hok
    rw [← hok] at hq
    obtain ⟨pair, hpair, hqp⟩ := List.mem_map.mp hq
    rw [← hqp]
    exact hnob pair.1 (List.of_mem_zip hpair).1

/-- Witness for C2 (amended) at a row whose two sub-levels are not
both B-prefixed. -/
theorem bFilterSkipsSuccessor_witness : startsB "I.2" = false := by
  have h := bFilterSkipsSuccessor "" ⟨"BT-9", "", "B.1\nI.2", "x\ny", ["1"], "2", []⟩
    (by decide) (by decide) (by decide)
  exact h [⟨"BT-9", "", "I.2", "y", ["1"], "2", []⟩] (by decide)
    ⟨"BT-9", "", "I.2", "y", ["1"], "2", []⟩ (by decide)

/-! ### Claims about the count-mismatch path (C3) -/

/-- C3 counterexample: the sheet whose only row still mismatches after
the repetition adjustment makes the whole run abort — the diagnostic
is printed, but no best-effort placements are emitted, and a later
well-formed sheet produces no output either, although that second
sheet alone would. -/
theorem sizeMismatchFatal_counterexample :
    extractAll
      [("eForm01 vs SF02", [⟨none, some "BT-1", none, some "a\nb\nc", some "x\ny", []⟩]),
       ("eForm03 vs SF04", [⟨none, some "BT-2", none, some "I.1", some "desc", []⟩])] =
      ([Diag.sizeDiffers "eForm01 - SF2: BT-1: " ["a", "b", "c"]
          ["x", "y", "x", "y", "x", "y"]],
       .error "eForm01 vs SF02: columns must have matching element counts") ∧
    extractAll [("eForm03 vs SF04", [⟨none, some "BT-2", none, some "I.1", some "desc", []⟩])] =
      ([], .ok [⟨"BT-2", "", "I.1", "desc", some "3", "4", []⟩]) := by
  refine ⟨by decide, by decide⟩

/-- C3 (amended): for a row whose counts still differ after the
adjustment, the `size differs` diagnostic naming the sheet notices,
the placement ID and both sequences is emitted, but then the
whole-sheet explode fails with the matching-counts `ValueError`, so
the sheet (and with it the run) aborts instead of emitting a
best-effort zip. -/
theorem sizeMismatchFatal (eforms sf : String) (pre post : List Row) (r : Row)
    (lv el : List String) (r2 : Row)
    (hex : (expandRow eforms sf r).1 = .multi lv el r2)
    (hlen : lv.length ≠ el.length) :
    (∃ lv0 el0, lv0.length ≠ el0.length ∧
      Diag.sizeDiffers (location eforms sf r.id) lv0 el0 ∈ (expandRow eforms sf r).2) ∧
    (expandSheet eforms sf (pre ++ r :: post)).2 = .error explodeErrMsg := by
  by_cases hnl : hasNl (processedRow eforms sf r).level = true
  case neg =>
    exfalso
    have hsing : (expandRow eforms sf r).1 = .single (processedRow eforms sf r) := by
      unfold expandRow splitStage
      rw [if_neg hnl]
    rw [hsing] at hex
    exact Expanded.noConfusion hex
  case pos =>
    have hs1 : (expandRow eforms sf r).1 =
        .multi (bScan (splitLevels (processedRow eforms sf r))
                  (splitElements (processedRow eforms sf r))).1
               (bScan (splitLevels (processedRow eforms sf r))
                  (splitElements (processedRow eforms sf r))).2
               (processedRow eforms sf r) := by
      unfold expandRow splitStage
      rw [if_pos hnl]
    rw [hs1] at hex
    injection hex with e1 e2 e3
    have hb := bScan_len (splitLevels (processedRow eforms sf r))
      (splitElements (processedRow eforms sf r))
    rw [e1, e2] at hb
    have hmis : ¬(splitLevels (processedRow eforms sf r)).length =
        (splitElements (processedRow eforms sf r)).length := by omega
    constructor
    · refine ⟨splitLevels (processedRow eforms sf r),
        splitElements (processedRow eforms sf r), hmis, ?_⟩
      show Diag.sizeDiffers (location eforms sf r.id)
          (splitLevels (processedRow eforms sf r))
          (splitElements (processedRow eforms sf r)) ∈
        (cleanupElement (location eforms sf r.id) r.element).2 ++
          (splitStage (location eforms sf r.id) (processedRow eforms sf r)).2
      have hds : (splitStage (location eforms sf r.id) (processedRow eforms sf r)).2 =
          [Diag.sizeDiffers (location eforms sf r.id)
            (splitLevels (processedRow eforms sf r))
            (splitElements (processedRow eforms sf r))] := by
        unfold splitStage
        rw [if_pos hnl, if_neg hmis]
      rw [hds]
      exact List.mem_append_right _ (List.mem_singleton.mpr rfl)
    · have hee : explodeExpanded ((expandRow eforms sf r).1) = .error explodeErrMsg := by
        rw [hs1, explodeExpanded, if_neg (by rw [e1, e2]; exact hlen)]
      show explodeAll (((pre ++ r :: post).map (expandRow eforms sf)).map Prod.fst) =
        .error explodeErrMsg
      rw [List.map_append, List.map_cons, List.map_append, List.map_cons]
      exact explodeAll_error _ _ hee

/-- Witness for C3 (amended) at the three-versus-two row. -/
theorem sizeMismatchFatal_witness :
    (expandSheet "01" "2" [⟨"BT-1", "", "a\nb\nc", "x\ny", ["1"], "2", []⟩]).2 =
      .error explodeErrMsg := by
  have h := sizeMismatchFatal "01" "2" [] [] ⟨"BT-1", "", "a\nb\nc", "x\ny", ["1"], "2", []⟩
    ["a", "b", "c"] ["x", "y", "x", "y", "x", "y"]
    ⟨"BT-1", "", "a\nb\nc", "x\ny", ["1"], "2", []⟩ (by decide) (by decide)
  exact h.2

end EUS
